import Mathlib

/-!
Shallow embedding of `24_other_gender_external_cohort_bar_person.py`,
a one-shot pandas/matplotlib script that filters award-participation
records, joins in cohort and gender, counts (cohort, gender) pairs and
renders a stacked bar chart.  Tables are lists of rows; pandas
operations become list operations; the crashing `astype` cast becomes
an `Option`-valued step.
-/

/-- A row of `individual_awards.csv` (only the columns the script touches). -/
structure PartRow where
  award_type : String
  award_role : String
  person_id : String
  award_id : String
  award_start_year : Int
deriving DecidableEq

/-- A row of `awards.csv` after column selection `[['award_id', 'cohort']]`. -/
structure AwardRow where
  award_id : String
  cohort : Int
deriving DecidableEq

/-- A row of `individual_demographics.csv` after selection `[['person_id', 'gender']]`. -/
structure DemRow where
  person_id : String
  gender : String
deriving DecidableEq

/-- `MIN = 1`: lower cohort bound. -/
def MIN : Int := 1

/-- `MAX = 9`: upper cohort bound. -/
def MAX : Int := 9

/-- The `level` selector: `'person'` or `'role'`. -/
inductive Level where
  | person
  | role
deriving DecidableEq

/-- The script's hard-coded configuration value `level = 'person'`. -/
def level : Level := Level.person

/-- `df_awards_i[df_awards_i['award_type'] == "it"]`. -/
def filterByType (rows : List PartRow) : List PartRow :=
  rows.filter (fun r => r.award_type == "it")

/-- The role predicate of the second filter: not one of the four PI-like
roles and `"internal"` not a substring of the role
(`str.contains("internal")` with a literal pattern is substring search). -/
def roleKeep (r : PartRow) : Bool :=
  r.award_role != "pi" && r.award_role != "co-pi" &&
  r.award_role != "former pi" && r.award_role != "former co-pi" &&
  !(decide ("internal".data <:+: r.award_role.data))

/-- The second filter over `df_awards_i` (roles). -/
def filterByRole (rows : List PartRow) : List PartRow :=
  rows.filter roleKeep

/-- Both filters applied in sequence, as in the script. -/
def filteredParts (rows : List PartRow) : List PartRow :=
  filterByRole (filterByType rows)

/-- `level_cols = ['person_id'] if level == 'person' else ['person_id', 'award_id']`:
the deduplication key. At person level the award component is `none`. -/
def dedupKey (lvl : Level) (r : PartRow) : String × Option String :=
  match lvl with
  | Level.person => (r.person_id, none)
  | Level.role => (r.person_id, some r.award_id)

/-- `drop_duplicates(level_cols)` keeps, in input order, the first row with
each key; `seen` accumulates the keys already emitted. -/
def dropDupAux (lvl : Level) (seen : List (String × Option String)) :
    List PartRow → List PartRow
  | [] => []
  | r :: rs =>
    if dedupKey lvl r ∈ seen then dropDupAux lvl seen rs
    else r :: dropDupAux lvl (dedupKey lvl r :: seen) rs

/-- `df_awards_i.drop_duplicates(level_cols)`. -/
def drop_duplicates (lvl : Level) (rows : List PartRow) : List PartRow :=
  dropDupAux lvl [] rows

/-- A master-table row before the cohort merge:
`df_awards_i[['person_id', 'award_id', 'award_start_year', 'award_role']]`. -/
structure MasterRow where
  person_id : String
  award_id : String
  award_start_year : Int
  award_role : String
deriving DecidableEq

/-- Column selection building the initial `df_master`. -/
def toMaster (r : PartRow) : MasterRow :=
  { person_id := r.person_id, award_id := r.award_id,
    award_start_year := r.award_start_year, award_role := r.award_role }

/-- The rows a left join on `award_id` produces for one master row: one row
per matching award, or a single row with a null cohort when no award
matches. -/
def cohortMatches (awards : List AwardRow) (r : MasterRow) :
    List (MasterRow × Option Int) :=
  let ms := awards.filter (fun a => a.award_id == r.award_id)
  if ms = [] then [(r, none)] else ms.map (fun a => (r, some a.cohort))

/-- `pd.merge(df_master, df_awards, on='award_id', how='left')`: each left row
is paired with every matching award's cohort, or with `none` (pandas NaN)
when no award matches. -/
def mergeCohortLeft (awards : List AwardRow) (rows : List MasterRow) :
    List (MasterRow × Option Int) :=
  rows.flatMap (cohortMatches awards)

/-- `df_master.astype({'cohort': int})`: succeeds only when no cohort is
null (NaN), otherwise the script dies with an uncaught exception. -/
def castCohort : List (MasterRow × Option Int) → Option (List (MasterRow × Int))
  | [] => some []
  | (_, none) :: _ => none
  | (r, some c) :: rest => (castCohort rest).map (fun l => (r, c) :: l)

/-- A row of the final working table, after the gender merge. -/
structure WorkRow where
  person_id : String
  award_id : String
  award_start_year : Int
  award_role : String
  cohort : Int
  gender : String
deriving DecidableEq

/-- `pd.merge(df_master, df_dems, on='person_id')`: inner join, each left
row paired with every matching demographic record's gender; rows with no
match are dropped. -/
def mergeGender (dems : List DemRow) (rows : List (MasterRow × Int)) :
    List WorkRow :=
  rows.flatMap (fun rc =>
    (dems.filter (fun d => d.person_id == rc.1.person_id)).map (fun d =>
      { person_id := rc.1.person_id, award_id := rc.1.award_id,
        award_start_year := rc.1.award_start_year,
        award_role := rc.1.award_role, cohort := rc.2, gender := d.gender }))

/-- The whole dataset stage of the script, from raw tables to the final
working table `df_master`; `none` models the uncaught `astype` exception
(no image is written in that case). -/
def pipeline (lvl : Level) (parts : List PartRow) (awards : List AwardRow)
    (dems : List DemRow) : Option (List WorkRow) :=
  let master := (drop_duplicates lvl (filteredParts parts)).map toMaster
  (castCohort (mergeCohortLeft awards master)).map (fun casted =>
    mergeGender dems
      (casted.filter (fun rc => MIN ≤ rc.2 && rc.2 ≤ MAX)))

/-- `get_q(cohort, gender)`: size of the working-table slice with the given
cohort and gender. -/
def get_q (w : List WorkRow) (cohort : Int) (gender : String) : Nat :=
  (w.filter (fun r => r.cohort == cohort && r.gender == gender)).length

/-- `cohorts = sorted(list(filter(no_nans, df_master['cohort'].unique())))`:
the distinct cohort values, ascending.  After the integer cast no cohort
can stringify to `'nan'`, so the `no_nans` filter is the identity here. -/
def cohortsOf (w : List WorkRow) : List Int :=
  List.insertionSort (· ≤ ·) (w.map (fun r => r.cohort)).dedup

/-- `genders = sorted(list(filter(no_nans, df_master['gender'].unique())))`:
the distinct gender values, ascending; `no_nans` drops values whose string
form is `'nan'` (pandas nulls). -/
def gendersOf (w : List WorkRow) : List String :=
  List.insertionSort (· ≤ ·)
    ((w.map (fun r => r.gender)).dedup.filter (fun g => g != "nan"))

/-- A row of the quantity table `df_q`. -/
structure QRow where
  cohort : Int
  men : Nat
  women : Nat
deriving DecidableEq

/-- The loop appending `{'cohort': cohort, 'men': get_q(cohort, 'man'),
'women': get_q(cohort, 'woman')}` to `df_q` for each cohort. -/
def df_q (w : List WorkRow) : List QRow :=
  (cohortsOf w).map (fun c =>
    { cohort := c, men := get_q w c "man", women := get_q w c "woman" })

/-- Python's built-in `round` applied to the exact value of its (float)
argument: round half to even. -/
def roundHalfEven (q : ℚ) : ℤ :=
  if Int.fract q < 1 / 2 then ⌊q⌋
  else if 1 / 2 < Int.fract q then ⌊q⌋ + 1
  else if ⌊q⌋ % 2 = 0 then ⌊q⌋ else ⌊q⌋ + 1

/-- `⌊log₂ q⌋` of a positive rational, from the integer logarithms of its
numerator and denominator (used to place a value in its binade). -/
def log2floor (q : ℚ) : ℤ :=
  let c : ℤ := (Nat.log 2 q.num.toNat : ℤ) - (Nat.log 2 q.den : ℤ)
  if (2 : ℚ) ^ c ≤ q then c else c - 1

/-- Correct rounding of an exact rational to an IEEE-754 binary64 double
(round to nearest, ties to even): the nearest multiple of `2 ^ (e - 52)`
where `2 ^ e ≤ |q| < 2 ^ (e + 1)`, with the spacing clamped below at the
subnormal grid `2 ^ (-1074)`.  This is the value Python's true division
of two ints produces for the exact quotient (and equally the double
division the script performs, its operands being exactly representable);
results here stay far below the overflow threshold. -/
def fl64 (q : ℚ) : ℚ :=
  if q = 0 then 0
  else if 0 < q then
    let e : ℤ := max (log2floor q) (-1022);
    (roundHalfEven (q * 2 ^ (52 - e)) : ℚ) / 2 ^ (52 - e)
  else
    let e : ℤ := max (log2floor (-q)) (-1022);
    -((roundHalfEven (-q * 2 ^ (52 - e)) : ℚ) / 2 ^ (52 - e))

/-- `get_vals(cohort)` restricted to its arithmetic: from the cohort's raw
counts, the rounded percentages and the raw counts, or all zeros when the
cohort total is zero (the division is never executed then).  The division
`raw * 100 / sum_raw` is Python float division: the correctly rounded
binary64 value (`fl64`) of the exact quotient, to which `round` is then
applied. -/
def get_vals (men_raw women_raw : Nat) : Int × Int × Nat × Nat :=
  let sum_raw := men_raw + women_raw
  if sum_raw ≠ 0 then
    (roundHalfEven (fl64 ((men_raw * 100 : ℚ) / (sum_raw : ℚ))),
     roundHalfEven (fl64 ((women_raw * 100 : ℚ) / (sum_raw : ℚ))),
     men_raw, women_raw)
  else (0, 0, 0, 0)

/-- `cum_sums` after the rendering loop: one `sum_raw` per cohort, in
cohort order (appended by `get_vals` before the zero test). -/
def cum_sums (w : List WorkRow) : List Nat :=
  (df_q w).map (fun q => q.men + q.women)

/-- `total = str(sum(cum_sums))`: the n displayed in the title. -/
def total (w : List WorkRow) : Nat :=
  (cum_sums w).sum

/-! ### Concrete tables used by counterexamples and witnesses -/

/-- An external participation row of person `P1` on award `A1`. -/
def exRow1 : PartRow :=
  { award_type := "it", award_role := "co-investigator", person_id := "P1",
    award_id := "A1", award_start_year := 2015 }

/-- An external participation row of person `P1` on award `A2`. -/
def exRow2 : PartRow :=
  { award_type := "it", award_role := "co-investigator", person_id := "P1",
    award_id := "A2", award_start_year := 2016 }

/-- A small participation table: two external rows for `P1` (awards `A1`,
`A2`), one `former pi` row and one `internal advisor` row. -/
def exParts : List PartRow :=
  [exRow1, exRow2,
   { award_type := "it", award_role := "former pi", person_id := "P2",
     award_id := "A1", award_start_year := 2015 },
   { award_type := "it", award_role := "internal advisor", person_id := "P3",
     award_id := "A1", award_start_year := 2015 }]

/-- An awards table knowing only `A1` (cohort 2); `A2` is unmatched. -/
def exAwards : List AwardRow := [{ award_id := "A1", cohort := 2 }]

/-- A demographics table for `P1` only. -/
def exDems : List DemRow := [{ person_id := "P1", gender := "man" }]

/-- The working-table row the pipeline produces from the tables above. -/
def exWRow : WorkRow :=
  { person_id := "P1", award_id := "A1", award_start_year := 2015,
    award_role := "co-investigator", cohort := 2, gender := "man" }

/-- A participation table whose only row survives filtering and
deduplication but has no matching award (`A2` is unknown to `exAwards`). -/
def parts4 : List PartRow := [exRow2]

/-- Participation table for the dedup-before-join scenario: `P1` appears
first on out-of-range award `A1`, then on in-range award `A2`; `P9`
appears on `A2` only. -/
def parts9 : List PartRow :=
  [exRow1, exRow2,
   { award_type := "it", award_role := "co-investigator", person_id := "P9",
     award_id := "A2", award_start_year := 2016 }]

/-- Awards table where `A1` has cohort 10 (out of range) and `A2` cohort 2. -/
def awards9 : List AwardRow :=
  [{ award_id := "A1", cohort := 10 }, { award_id := "A2", cohort := 2 }]

/-- Demographics for both `P1` and `P9`. -/
def dems9 : List DemRow :=
  [{ person_id := "P1", gender := "man" }, { person_id := "P9", gender := "woman" }]

/-- The single working-table row the pipeline produces from the `…9` tables. -/
def wRow9 : WorkRow :=
  { person_id := "P9", award_id := "A2", award_start_year := 2016,
    award_role := "co-investigator", cohort := 2, gender := "woman" }

/-- A one-row working table whose gender is neither `"man"` nor `"woman"`. -/
def exNB : List WorkRow :=
  [{ person_id := "P4", award_id := "A1", award_start_year := 2015,
     award_role := "co-investigator", cohort := 1, gender := "nonbinary" }]

/-- `men_raw` of a cohort on which double rounding makes the two rounded
percentages sum to 101: the cohort total is `2.5 * 2 ^ 47 + 39`, so the
men's exact percentage `97.5 - 2.5/total` rounds (as a double) up to
exactly 97.5 and then to 98, while the women's `2.5 + 2.5/total` rounds
to a double strictly above 2.5 and then to 3. -/
def bigM : Nat := 343047627866150

/-- `women_raw` of that cohort (`bigM + bigW = 351843720888359`). -/
def bigW : Nat := 8796093022209

/-! ### Properties of the filter stage -/

theorem mem_filteredParts {parts : List PartRow} {r : PartRow} :
    r ∈ filteredParts parts ↔
      r ∈ parts ∧ r.award_type = "it" ∧
      r.award_role ≠ "pi" ∧ r.award_role ≠ "co-pi" ∧
      r.award_role ≠ "former pi" ∧ r.award_role ≠ "former co-pi" ∧
      ¬ ("internal".data <:+: r.award_role.data) := by
  simp only [filteredParts, filterByRole, filterByType, roleKeep, List.mem_filter,
    Bool.and_eq_true, bne_iff_ne, ne_eq, Bool.not_eq_true', decide_eq_false_iff_not,
    beq_iff_eq]
  tauto

/-- C1: a participation row survives the two filters iff its award type is
`"it"`, its role is none of the four PI-like roles, and `"internal"` is not
a substring of its role. -/
theorem c1_filter_membership (parts : List PartRow) (r : PartRow) :
    r ∈ filteredParts parts ↔
      r ∈ parts ∧ r.award_type = "it" ∧
      r.award_role ≠ "pi" ∧ r.award_role ≠ "co-pi" ∧
      r.award_role ≠ "former pi" ∧ r.award_role ≠ "former co-pi" ∧
      ¬ ("internal".data <:+: r.award_role.data) :=
  mem_filteredParts

/-- C7: when a cohort's two raw counts sum to zero, `get_vals` reports all
four values as zero without performing the division. -/
theorem c7_zero_cohort (m w : Nat) (h : m + w = 0) :
    get_vals m w = (0, 0, 0, 0) := by
  simp [get_vals, h]

/-- Witness for C7 at `men_raw = 0, women_raw = 0`. -/
theorem c7_zero_cohort_witness : get_vals 0 0 = (0, 0, 0, 0) :=
  c7_zero_cohort 0 0 rfl

/-! ### Properties of deduplication -/

theorem dropDupAux_mem (lvl : Level) (seen : List (String × Option String))
    (l : List PartRow) (r : PartRow) (hr : r ∈ dropDupAux lvl seen l) :
    dedupKey lvl r ∉ seen ∧
      l.find? (fun x => dedupKey lvl x == dedupKey lvl r) = some r := by
  induction l generalizing seen with
  | nil => simp [dropDupAux] at hr
  | cons x xs ih =>
    by_cases hx : dedupKey lvl x ∈ seen
    · rw [dropDupAux, if_pos hx] at hr
      obtain ⟨h1, h2⟩ := ih seen hr
      have hne : (dedupKey lvl x == dedupKey lvl r) = false := by
        rw [beq_eq_false_iff_ne]
        exact fun he => h1 (he ▸ hx)
      refine ⟨h1, ?_⟩
      rw [List.find?_cons, hne]
      exact h2
    · rw [dropDupAux, if_neg hx] at hr
      rcases List.mem_cons.mp hr with rfl | htail
      · exact ⟨hx, by rw [List.find?_cons, beq_self_eq_true]⟩
      · obtain ⟨h1, h2⟩ := ih (dedupKey lvl x :: seen) htail
        rw [List.mem_cons, not_or] at h1
        have hne : (dedupKey lvl x == dedupKey lvl r) = false := by
          rw [beq_eq_false_iff_ne]
          exact fun he => h1.1 he.symm
        exact ⟨h1.2, by rw [List.find?_cons, hne]; exact h2⟩

theorem dropDupAux_pairwise (lvl : Level) (seen : List (String × Option String))
    (l : List PartRow) :
    (dropDupAux lvl seen l).Pairwise
      (fun a b => dedupKey lvl a ≠ dedupKey lvl b) := by
  induction l generalizing seen with
  | nil => simp [dropDupAux]
  | cons x xs ih =>
    by_cases hx : dedupKey lvl x ∈ seen
    · rw [dropDupAux, if_pos hx]; exact ih seen
    · rw [dropDupAux, if_neg hx]
      refine List.Pairwise.cons ?_ (ih (dedupKey lvl x :: seen))
      intro b hb he
      have h1 := (dropDupAux_mem lvl _ _ b hb).1
      exact h1 (by rw [← he]; exact List.mem_cons_self _ _)

/-- C6: person-level deduplication keeps at most one row per person, and the
kept row is the first filtered row with that person identifier in input
order; role-level deduplication keeps at most one row per (person, award)
pair. -/
theorem c6_dedup_first (parts : List PartRow) :
    ((drop_duplicates Level.person (filteredParts parts)).Pairwise
        (fun a b => a.person_id ≠ b.person_id)) ∧
    (∀ r ∈ drop_duplicates Level.person (filteredParts parts),
        (filteredParts parts).find? (fun x => x.person_id == r.person_id) = some r) ∧
    ((drop_duplicates Level.role (filteredParts parts)).Pairwise
        (fun a b => ¬ (a.person_id = b.person_id ∧ a.award_id = b.award_id))) := by
  refine ⟨?_, ?_, ?_⟩
  · refine (dropDupAux_pairwise Level.person [] (filteredParts parts)).imp ?_
    intro a b hab he
    exact hab (by simp [dedupKey, he])
  · intro r hr
    have h := (dropDupAux_mem Level.person [] (filteredParts parts) r hr).2
    have hpred : (fun x => dedupKey Level.person x == dedupKey Level.person r)
        = (fun x : PartRow => x.person_id == r.person_id) := by
      funext x
      by_cases hx : x.person_id = r.person_id <;> simp [dedupKey, hx]
    rw [hpred] at h
    exact h
  · refine (dropDupAux_pairwise Level.role [] (filteredParts parts)).imp ?_
    intro a b hab he
    exact hab (by simp [dedupKey, he.1, he.2])

/-- Witness for C6: in `exParts`, person `P1` has two filtered rows and the
dedup stage keeps the first of them, `exRow1`. -/
theorem c6_dedup_first_witness :
    (filteredParts exParts).find? (fun x => x.person_id == exRow1.person_id)
      = some exRow1 :=
  (c6_dedup_first exParts).2.1 exRow1 (by decide)

/-! ### Inverting the join stages -/

theorem pipeline_eq_some {lvl : Level} {parts : List PartRow}
    {awards : List AwardRow} {dems : List DemRow} {w : List WorkRow}
    (h : pipeline lvl parts awards dems = some w) :
    ∃ casted, castCohort (mergeCohortLeft awards
        ((drop_duplicates lvl (filteredParts parts)).map toMaster)) = some casted ∧
      w = mergeGender dems (casted.filter (fun rc => MIN ≤ rc.2 && rc.2 ≤ MAX)) := by
  unfold pipeline at h
  rw [Option.map_eq_some'] at h
  obtain ⟨casted, h1, h2⟩ := h
  exact ⟨casted, h1, h2.symm⟩

theorem mem_mergeGender_inv {dems : List DemRow} {rows : List (MasterRow × Int)}
    {r : WorkRow} (h : r ∈ mergeGender dems rows) :
    ∃ rc ∈ rows, r.person_id = rc.1.person_id ∧ r.cohort = rc.2 ∧
      ∃ d ∈ dems, d.person_id = rc.1.person_id ∧ r.gender = d.gender := by
  simp only [mergeGender, List.mem_flatMap, List.mem_map, List.mem_filter] at h
  obtain ⟨rc, hrc, d, ⟨hd, hdp⟩, heq⟩ := h
  subst heq
  exact ⟨rc, hrc, rfl, rfl, d, hd, by simpa using hdp, rfl⟩

/-- C5: every row of the final working table has its (integer) cohort in
the closed range `[MIN, MAX] = [1, 9]`. -/
theorem c5_cohort_in_range (lvl : Level) (parts : List PartRow)
    (awards : List AwardRow) (dems : List DemRow) (w : List WorkRow)
    (hw : pipeline lvl parts awards dems = some w) :
    ∀ r ∈ w, MIN ≤ r.cohort ∧ r.cohort ≤ MAX := by
  obtain ⟨casted, hcast, hww⟩ := pipeline_eq_some hw
  intro r hr
  rw [hww] at hr
  obtain ⟨rc, hrc, hp, hc, -⟩ := mem_mergeGender_inv hr
  rw [List.mem_filter] at hrc
  have hcond := hrc.2
  simp only [Bool.and_eq_true, decide_eq_true_eq] at hcond
  rw [hc]
  exact hcond

/-- Witness for C5 on the concrete tables: the produced row has cohort 2,
inside `[1, 9]`. -/
theorem c5_cohort_in_range_witness : MIN ≤ exWRow.cohort ∧ exWRow.cohort ≤ MAX :=
  c5_cohort_in_range Level.person exParts exAwards exDems [exWRow] (by decide)
    exWRow (by decide)

/-! ### The integer cast and the left join -/

theorem castCohort_none {rows : List (MasterRow × Option Int)} {m : MasterRow}
    (h : (m, (none : Option Int)) ∈ rows) : castCohort rows = none := by
  induction rows with
  | nil => cases h
  | cons x rest ih =>
    obtain ⟨mx, cx⟩ := x
    cases cx with
    | none => rfl
    | some c =>
      rcases List.mem_cons.mp h with heq | htail
      · simp at heq
      · rw [castCohort, ih htail]
        rfl

theorem castCohort_mem {rows : List (MasterRow × Option Int)}
    {l : List (MasterRow × Int)} (h : castCohort rows = some l) :
    ∀ x ∈ l, (x.1, some x.2) ∈ rows := by
  induction rows generalizing l with
  | nil =>
    simp only [castCohort, Option.some.injEq] at h
    subst h
    intro x hx
    cases hx
  | cons y rest ih =>
    obtain ⟨my, cy⟩ := y
    cases cy with
    | none => simp [castCohort] at h
    | some c =>
      rw [castCohort, Option.map_eq_some'] at h
      obtain ⟨l', hl', rfl⟩ := h
      intro x hx
      rcases List.mem_cons.mp hx with rfl | hxtail
      · exact List.mem_cons_self _ _
      · exact List.mem_cons_of_mem _ (ih hl' x hxtail)

theorem mem_mergeCohortLeft_none {awards : List AwardRow} {rows : List MasterRow}
    {m : MasterRow} (hm : m ∈ rows)
    (h : awards.filter (fun a => a.award_id == m.award_id) = []) :
    (m, (none : Option Int)) ∈ mergeCohortLeft awards rows := by
  unfold mergeCohortLeft
  rw [List.mem_flatMap]
  refine ⟨m, hm, ?_⟩
  simp [cohortMatches, h]

theorem mem_mergeCohortLeft_some {awards : List AwardRow} {rows : List MasterRow}
    {m : MasterRow} {c : Int}
    (h : (m, some c) ∈ mergeCohortLeft awards rows) :
    m ∈ rows ∧ ∃ a ∈ awards, a.award_id = m.award_id ∧ a.cohort = c := by
  unfold mergeCohortLeft at h
  rw [List.mem_flatMap] at h
  obtain ⟨r, hr, hmem⟩ := h
  simp only [cohortMatches] at hmem
  by_cases hf : awards.filter (fun a => a.award_id == r.award_id) = []
  · simp [hf] at hmem
  · rw [if_neg hf, List.mem_map] at hmem
    obtain ⟨a, ha, heq⟩ := hmem
    obtain ⟨ha1, ha2⟩ := List.mem_filter.mp ha
    obtain ⟨rfl, hc⟩ : r = m ∧ some a.cohort = some c := Prod.mk.injEq .. ▸ heq
    refine ⟨hr, a, ha1, by simpa using ha2, by injection hc⟩

/-- C4 counterexample: the filtered set of `exParts` contains a row (for
award `A2`) with no matching award record, yet the run does not fail,
because person-level deduplication discards that row before the join and
the cast. -/
theorem c4_counterexample :
    (∃ r ∈ filteredParts exParts, ∀ a ∈ exAwards, a.award_id ≠ r.award_id) ∧
    pipeline Level.person exParts exAwards exDems ≠ none := by decide

/-- C4 (amended): if a filtered row that also survives deduplication has an
award identifier with no matching award record, the left join gives it a
null cohort and the integer cast fails, so the whole run aborts with no
image written. -/
theorem c4_unmatched_award_aborts (lvl : Level) (parts : List PartRow)
    (awards : List AwardRow) (dems : List DemRow) (r : PartRow)
    (hr : r ∈ drop_duplicates lvl (filteredParts parts))
    (hnm : ∀ a ∈ awards, a.award_id ≠ r.award_id) :
    pipeline lvl parts awards dems = none := by
  have hm : toMaster r ∈ (drop_duplicates lvl (filteredParts parts)).map toMaster :=
    List.mem_map_of_mem _ hr
  have hfil : awards.filter (fun a => a.award_id == (toMaster r).award_id) = [] := by
    rw [List.filter_eq_nil_iff]
    intro a ha
    simpa [toMaster] using hnm a ha
  have hnone := castCohort_none (mem_mergeCohortLeft_none hm hfil)
  simp only [pipeline]
  rw [hnone]
  rfl

/-- Witness for the amended C4: a table whose single surviving row points
at the unknown award `A2` makes the pipeline abort. -/
theorem c4_unmatched_award_aborts_witness :
    pipeline Level.person parts4 exAwards exDems = none :=
  c4_unmatched_award_aborts Level.person parts4 exAwards exDems exRow2
    (by decide) (by decide)

/-- C9: person-level deduplication happens before the cohort join and the
cohort-range filter, so a person whose first filtered row (in input order)
only matches awards with out-of-range cohorts appears nowhere in the final
working table, even if a later filtered row of theirs is in range. -/
theorem c9_dedup_before_join (parts : List PartRow) (awards : List AwardRow)
    (dems : List DemRow) (w : List WorkRow) (p : String) (r : PartRow)
    (hw : pipeline Level.person parts awards dems = some w)
    (hr : (filteredParts parts).find? (fun x => x.person_id == p) = some r)
    (hout : ∀ a ∈ awards, a.award_id = r.award_id → a.cohort < MIN ∨ MAX < a.cohort) :
    ∀ x ∈ w, x.person_id ≠ p := by
  obtain ⟨casted, hcast, hww⟩ := pipeline_eq_some hw
  intro x hx hxp
  rw [hww] at hx
  obtain ⟨rc, hrc, hperson, hcoh, -⟩ := mem_mergeGender_inv hx
  rw [List.mem_filter] at hrc
  obtain ⟨hrc, hcond⟩ := hrc
  simp only [Bool.and_eq_true, decide_eq_true_eq] at hcond
  have hmem := castCohort_mem hcast rc hrc
  obtain ⟨hmaster, a, ha, haid, hacoh⟩ := mem_mergeCohortLeft_some hmem
  rw [List.mem_map] at hmaster
  obtain ⟨r', hr', hrm⟩ := hmaster
  have hp' : r'.person_id = p := by
    rw [← hxp, hperson, ← hrm]
    rfl
  have hfind := (dropDupAux_mem Level.person [] (filteredParts parts) r' hr').2
  have hpred : (fun x => dedupKey Level.person x == dedupKey Level.person r')
      = (fun x : PartRow => x.person_id == p) := by
    funext y
    by_cases hy : y.person_id = p <;> simp [dedupKey, hp', hy]
  rw [hpred, hr] at hfind
  have hr'r : r = r' := by injection hfind
  have haid' : a.award_id = r.award_id := by
    rw [haid, ← hrm, hr'r]
    rfl
  have := hout a ha haid'
  rw [hacoh] at this
  rcases this with h | h
  · exact absurd hcond.1 (by exact not_le.mpr h)
  · exact absurd hcond.2 (by exact not_le.mpr h)

/-- Witness for C9: `P1`'s first filtered row points at out-of-range award
`A1`, so `P1` is absent from the resulting table (which contains `P9`). -/
theorem c9_dedup_before_join_witness : wRow9.person_id ≠ "P1" :=
  c9_dedup_before_join parts9 awards9 dems9 [wRow9] "P1" exRow1 (by decide)
    (by decide) (by decide) wRow9 (by decide)

/-! ### Rounded percentages -/

theorem roundHalfEven_add_compl (q : ℚ) :
    roundHalfEven q + roundHalfEven (100 - q) = 100 := by
  have hr0 : 0 ≤ Int.fract q := Int.fract_nonneg q
  have hr1 : Int.fract q < 1 := Int.fract_lt_one q
  have hq : (⌊q⌋ : ℚ) + Int.fract q = q := Int.floor_add_fract q
  by_cases h0 : Int.fract q = 0
  · have h2 : (100 : ℚ) - q = ((100 - ⌊q⌋ : ℤ) : ℚ) := by
      push_cast
      linarith [hq, h0]
    simp only [roundHalfEven, h2, Int.fract_intCast, Int.floor_intCast, h0]
    norm_num
  · have hrpos : 0 < Int.fract q := lt_of_le_of_ne hr0 (Ne.symm h0)
    have hfloor2 : ⌊(100 : ℚ) - q⌋ = 99 - ⌊q⌋ := by
      rw [Int.floor_eq_iff]
      constructor
      · push_cast
        linarith
      · push_cast
        linarith
    have hfract2 : Int.fract ((100 : ℚ) - q) = 1 - Int.fract q := by
      rw [← Int.self_sub_floor, hfloor2, ← Int.self_sub_floor]
      push_cast
      ring
    simp only [roundHalfEven, hfract2, hfloor2]
    split_ifs <;> first | omega | linarith

theorem get_vals_eq (m w : Nat) (h : m + w ≠ 0) :
    get_vals m w =
      (roundHalfEven (fl64 ((m * 100 : ℚ) / ((m + w : ℕ) : ℚ))),
       roundHalfEven (fl64 ((w * 100 : ℚ) / ((m + w : ℕ) : ℚ))), m, w) := by
  simp [get_vals, h]

theorem roundHalfEven_intCast (n : ℤ) : roundHalfEven ((n : ℤ) : ℚ) = n := by
  norm_num [roundHalfEven, Int.fract_intCast, Int.floor_intCast]

theorem log2floor_spec (q : ℚ) (hq : 0 < q) :
    (2 : ℚ) ^ log2floor q ≤ q ∧ q < 2 ^ (log2floor q + 1) := by
  have hnum : 0 < q.num := Rat.num_pos.mpr hq
  have hn0 : q.num.toNat ≠ 0 := by omega
  have hd0 : q.den ≠ 0 := q.den_nz
  have hdpos : (0 : ℚ) < (q.den : ℚ) := by
    exact_mod_cast Nat.pos_of_ne_zero hd0
  have hnumcast : ((q.num.toNat : ℚ)) = (q.num : ℚ) := by
    exact_mod_cast Int.toNat_of_nonneg hnum.le
  have hb1 : (2 : ℚ) ^ ((Nat.log 2 q.num.toNat : ℤ)) ≤ (q.num : ℚ) := by
    rw [zpow_natCast, ← hnumcast]
    exact_mod_cast Nat.pow_log_le_self 2 hn0
  have hb2 : (q.num : ℚ) < 2 ^ ((Nat.log 2 q.num.toNat : ℤ) + 1) := by
    rw [show ((Nat.log 2 q.num.toNat : ℤ) + 1)
          = ((Nat.log 2 q.num.toNat + 1 : ℕ) : ℤ) by push_cast; ring,
      zpow_natCast, ← hnumcast]
    exact_mod_cast Nat.lt_pow_succ_log_self (by norm_num) q.num.toNat
  have hb3 : (2 : ℚ) ^ ((Nat.log 2 q.den : ℤ)) ≤ (q.den : ℚ) := by
    rw [zpow_natCast]
    exact_mod_cast Nat.pow_log_le_self 2 hd0
  have hb4 : (q.den : ℚ) < 2 ^ ((Nat.log 2 q.den : ℤ) + 1) := by
    rw [show ((Nat.log 2 q.den : ℤ) + 1) = ((Nat.log 2 q.den + 1 : ℕ) : ℤ) by
        push_cast; ring,
      zpow_natCast]
    exact_mod_cast Nat.lt_pow_succ_log_self (by norm_num) q.den
  have hlow : (2 : ℚ) ^ ((Nat.log 2 q.num.toNat : ℤ) - (Nat.log 2 q.den : ℤ) - 1) < q := by
    have hscaled : (2 : ℚ) ^ ((Nat.log 2 q.num.toNat : ℤ) - (Nat.log 2 q.den : ℤ) - 1)
        * (q.den : ℚ) < (q.num : ℚ) :=
      calc (2 : ℚ) ^ ((Nat.log 2 q.num.toNat : ℤ) - (Nat.log 2 q.den : ℤ) - 1) * (q.den : ℚ)
          < 2 ^ ((Nat.log 2 q.num.toNat : ℤ) - (Nat.log 2 q.den : ℤ) - 1)
            * 2 ^ ((Nat.log 2 q.den : ℤ) + 1) :=
            mul_lt_mul_of_pos_left hb4 (by positivity)
        _ = 2 ^ ((Nat.log 2 q.num.toNat : ℤ)) := by
            rw [← zpow_add₀ (by norm_num : (2 : ℚ) ≠ 0)]
            congr 1
            ring
        _ ≤ (q.num : ℚ) := hb1
    have h := (lt_div_iff₀ hdpos).mpr hscaled
    rwa [Rat.num_div_den q] at h
  have hupp : q < (2 : ℚ) ^ ((Nat.log 2 q.num.toNat : ℤ) - (Nat.log 2 q.den : ℤ) + 1) := by
    have hscaled : (q.num : ℚ)
        < 2 ^ ((Nat.log 2 q.num.toNat : ℤ) - (Nat.log 2 q.den : ℤ) + 1) * (q.den : ℚ) :=
      calc (q.num : ℚ) < 2 ^ ((Nat.log 2 q.num.toNat : ℤ) + 1) := hb2
        _ = 2 ^ ((Nat.log 2 q.num.toNat : ℤ) - (Nat.log 2 q.den : ℤ) + 1)
            * 2 ^ ((Nat.log 2 q.den : ℤ)) := by
            rw [← zpow_add₀ (by norm_num : (2 : ℚ) ≠ 0)]
            congr 1
            ring
        _ ≤ 2 ^ ((Nat.log 2 q.num.toNat : ℤ) - (Nat.log 2 q.den : ℤ) + 1) * (q.den : ℚ) :=
            mul_le_mul_of_nonneg_left hb3 (by positivity)
    have h := (div_lt_iff₀ hdpos).mpr hscaled
    rwa [Rat.num_div_den q] at h
  have hlf : log2floor q
      = (if (2 : ℚ) ^ ((Nat.log 2 q.num.toNat : ℤ) - (Nat.log 2 q.den : ℤ)) ≤ q
          then (Nat.log 2 q.num.toNat : ℤ) - (Nat.log 2 q.den : ℤ)
          else (Nat.log 2 q.num.toNat : ℤ) - (Nat.log 2 q.den : ℤ) - 1) := rfl
  by_cases hcase : (2 : ℚ) ^ ((Nat.log 2 q.num.toNat : ℤ) - (Nat.log 2 q.den : ℤ)) ≤ q
  · rw [hlf, if_pos hcase]
    exact ⟨hcase, hupp⟩
  · rw [hlf, if_neg hcase]
    refine ⟨hlow.le, ?_⟩
    rw [show ((Nat.log 2 q.num.toNat : ℤ) - (Nat.log 2 q.den : ℤ) - 1 + 1)
        = (Nat.log 2 q.num.toNat : ℤ) - (Nat.log 2 q.den : ℤ) by ring]
    exact not_le.mp hcase

theorem fl64_spec (q : ℚ) (e : ℤ) (he : -1022 ≤ e)
    (h1 : (2 : ℚ) ^ e ≤ q) (h2 : q < 2 ^ (e + 1)) :
    fl64 q = (roundHalfEven (q * 2 ^ (52 - e)) : ℚ) / 2 ^ (52 - e) := by
  have hq : 0 < q := lt_of_lt_of_le (by positivity) h1
  have hspec := log2floor_spec q hq
  have hlog : log2floor q = e := by
    rcases lt_trichotomy (log2floor q) e with hlt | heqq | hgt
    · exfalso
      have hle : (2 : ℚ) ^ (log2floor q + 1) ≤ 2 ^ e :=
        zpow_le_zpow_right₀ (by norm_num) (by omega)
      linarith [hspec.2, h1]
    · exact heqq
    · exfalso
      have hle : (2 : ℚ) ^ (e + 1) ≤ 2 ^ (log2floor q) :=
        zpow_le_zpow_right₀ (by norm_num) (by omega)
      linarith [hspec.1, h2]
  have hfl : fl64 q = (roundHalfEven (q * 2 ^ (52 - max (log2floor q) (-1022))) : ℚ)
      / 2 ^ (52 - max (log2floor q) (-1022)) := by
    simp only [fl64, if_neg (ne_of_gt hq), if_pos hq]
  rw [hfl, hlog, max_eq_left he]

theorem fl64_eq_self (q : ℚ) (e : ℤ) (n : ℤ) (he : -1022 ≤ e)
    (h1 : (2 : ℚ) ^ e ≤ q) (h2 : q < 2 ^ (e + 1))
    (hn : q * 2 ^ (52 - e) = ((n : ℤ) : ℚ)) : fl64 q = q := by
  rw [fl64_spec q e he h1 h2, hn, roundHalfEven_intCast, ← hn]
  exact mul_div_cancel_right₀ q (by positivity)

theorem fl64_75 : fl64 (75 : ℚ) = 75 :=
  fl64_eq_self 75 6 5277655813324800 (by norm_num) (by norm_num) (by norm_num)
    (by norm_num)

theorem fl64_25 : fl64 (25 : ℚ) = 25 :=
  fl64_eq_self 25 4 7036874417766400 (by norm_num) (by norm_num) (by norm_num)
    (by norm_num)

theorem fl64_12p5 : fl64 ((25 : ℚ) / 2) = 25 / 2 :=
  fl64_eq_self (25 / 2) 3 7036874417766400 (by norm_num) (by norm_num) (by norm_num)
    (by norm_num)

theorem fl64_87p5 : fl64 ((175 : ℚ) / 2) = 175 / 2 :=
  fl64_eq_self (175 / 2) 6 6157265115545600 (by norm_num) (by norm_num) (by norm_num)
    (by norm_num)

theorem fl64_big1 : fl64 ((34304762786615000 : ℚ) / 351843720888359) = 195 / 2 := by
  rw [fl64_spec ((34304762786615000 : ℚ) / 351843720888359) 6 (by norm_num)
    (by norm_num) (by norm_num)]
  rw [show roundHalfEven ((34304762786615000 : ℚ) / 351843720888359 * 2 ^ (52 - (6:ℤ)))
      = 6860952557322240 by norm_num [roundHalfEven, Int.fract]]
  norm_num

theorem fl64_big2 : fl64 ((879609302220900 : ℚ) / 351843720888359)
    = 351843720888321 / 140737488355328 := by
  rw [fl64_spec ((879609302220900 : ℚ) / 351843720888359) 1 (by norm_num)
    (by norm_num) (by norm_num)]
  rw [show roundHalfEven ((879609302220900 : ℚ) / 351843720888359 * 2 ^ (52 - (1:ℤ)))
      = 5629499534213136 by norm_num [roundHalfEven, Int.fract]]
  norm_num

theorem rhe_75 : roundHalfEven (75 : ℚ) = 75 := by
  norm_num [roundHalfEven, Int.fract]

theorem rhe_25 : roundHalfEven (25 : ℚ) = 25 := by
  norm_num [roundHalfEven, Int.fract]

theorem rhe_12p5 : roundHalfEven ((25 : ℚ) / 2) = 12 := by
  norm_num [roundHalfEven, Int.fract]

theorem rhe_87p5 : roundHalfEven ((175 : ℚ) / 2) = 88 := by
  norm_num [roundHalfEven, Int.fract]

theorem rhe_97p5 : roundHalfEven ((195 : ℚ) / 2) = 98 := by
  norm_num [roundHalfEven, Int.fract]

theorem rhe_big2 : roundHalfEven ((351843720888321 : ℚ) / 140737488355328) = 3 := by
  norm_num [roundHalfEven, Int.fract]

theorem get_vals_3_1 : get_vals 3 1 = (75, 25, 3, 1) := by
  rw [get_vals_eq 3 1 (by norm_num)]
  norm_num [fl64_75, fl64_25, rhe_75, rhe_25]

theorem get_vals_1_7 : get_vals 1 7 = (12, 88, 1, 7) := by
  rw [get_vals_eq 1 7 (by norm_num)]
  norm_num [fl64_12p5, fl64_87p5, rhe_12p5, rhe_87p5]

theorem get_vals_big : get_vals bigM bigW = (98, 3, bigM, bigW) := by
  rw [get_vals_eq bigM bigW (by norm_num [bigM, bigW])]
  norm_num [bigM, bigW, fl64_big1, fl64_big2, rhe_97p5, rhe_big2]

/-- C3: for a nonzero cohort total, each segment's percentage is Python's
round of the double-precision quotient raw·100/total, computed
independently per segment with no normalization; 3, 1 gives 75 and 25;
and the two rounded percentages are indeed not guaranteed to sum to
exactly 100: at `bigM`, `bigW` (total `2.5·2^47 + 39`) the double
rounding of the two quotients makes the rounds 98 and 3, summing to 101. -/
theorem c3_percentage_policy (m w : Nat) (h : m + w ≠ 0) :
    get_vals m w =
      (roundHalfEven (fl64 ((m * 100 : ℚ) / ((m + w : ℕ) : ℚ))),
       roundHalfEven (fl64 ((w * 100 : ℚ) / ((m + w : ℕ) : ℚ))), m, w) ∧
    get_vals 3 1 = (75, 25, 3, 1) ∧
    ∃ m' w' : Nat, m' + w' ≠ 0 ∧ (get_vals m' w').1 + (get_vals m' w').2.1 ≠ 100 :=
  ⟨get_vals_eq m w h, get_vals_3_1,
   bigM, bigW, by norm_num [bigM, bigW], by rw [get_vals_big]; norm_num⟩

/-- Witness for C3 at `men_raw = 3, women_raw = 1`. -/
theorem c3_percentage_policy_witness : get_vals 3 1 = (75, 25, 3, 1) :=
  (c3_percentage_policy 3 1 (by norm_num)).2.1

/-- C10 counterexample: at `men_raw = bigM, women_raw = bigW` the cohort
total is nonzero, yet the two independently rounded percentages are 98
and 3: their sum is 101, not 100, because the two double-precision
quotients are not exactly complementary. -/
theorem c10_counterexample :
    bigM + bigW ≠ 0 ∧ (get_vals bigM bigW).1 + (get_vals bigM bigW).2.1 ≠ 100 := by
  refine ⟨by norm_num [bigM, bigW], ?_⟩
  rw [get_vals_big]
  norm_num

/-- C10 (amended): round-half-to-even applied to a pair of exactly
complementary percentages always yields a sum of exactly 100 (on
complementary half-integers it picks the two even neighbours, so
`men_raw = 1, women_raw = 7` yields 12 and 88); but the program rounds
the two double-precision quotients, which need not be exactly
complementary, and at `bigM`, `bigW` the percentages are 98 and 3. -/
theorem c10_rounding_amended :
    (∀ q : ℚ, roundHalfEven q + roundHalfEven (100 - q) = 100) ∧
    get_vals 1 7 = (12, 88, 1, 7) ∧
    get_vals bigM bigW = (98, 3, bigM, bigW) :=
  ⟨roundHalfEven_add_compl, get_vals_1_7, get_vals_big⟩

/-! ### The summary axes and the displayed total -/

theorem cohortsOf_nodup (wt : List WorkRow) : (cohortsOf wt).Nodup :=
  ((List.perm_insertionSort _ _).nodup_iff).mpr (List.nodup_dedup _)

theorem mem_cohortsOf {wt : List WorkRow} {c : Int} :
    c ∈ cohortsOf wt ↔ ∃ r ∈ wt, r.cohort = c := by
  simp [cohortsOf, List.mem_insertionSort, List.mem_dedup]

theorem cohortsOf_sorted (wt : List WorkRow) : (cohortsOf wt).Sorted (· ≤ ·) :=
  List.sorted_insertionSort _ _

theorem gendersOf_nodup (wt : List WorkRow) : (gendersOf wt).Nodup :=
  ((List.perm_insertionSort _ _).nodup_iff).mpr ((List.nodup_dedup _).filter _)

theorem mem_gendersOf {wt : List WorkRow} {g : String} :
    g ∈ gendersOf wt ↔ g ≠ "nan" ∧ ∃ r ∈ wt, r.gender = g := by
  simp only [gendersOf, List.mem_insertionSort, List.mem_filter, List.mem_dedup,
    List.mem_map, bne_iff_ne, ne_eq]
  tauto

theorem gendersOf_sorted (wt : List WorkRow) : (gendersOf wt).Sorted (· ≤ ·) :=
  List.sorted_insertionSort _ _

theorem sum_map_addf {α : Type} (l : List α) (f g : α → ℕ) :
    (l.map (fun c => f c + g c)).sum = (l.map f).sum + (l.map g).sum := by
  induction l with
  | nil => rfl
  | cons x xs ih =>
    simp only [List.map_cons, List.sum_cons, ih]
    omega

theorem sum_indicator_one (l : List Int) (x : Int) (hnd : l.Nodup) (hx : x ∈ l) :
    (l.map (fun c => if x = c then (1 : ℕ) else 0)).sum = 1 := by
  induction l with
  | nil => cases hx
  | cons a as ih =>
    rw [List.nodup_cons] at hnd
    rcases List.mem_cons.mp hx with rfl | hxs
    · have hz : (as.map (fun c => if x = c then (1 : ℕ) else 0)).sum = 0 := by
        apply List.sum_eq_zero
        intro y hy
        rw [List.mem_map] at hy
        obtain ⟨c, hc, hcy⟩ := hy
        rw [← hcy, if_neg]
        intro he
        exact hnd.1 (he ▸ hc)
      rw [List.map_cons, List.sum_cons, if_pos rfl, hz]
    · have hax : x ≠ a := fun he => hnd.1 (he ▸ hxs)
      simp only [List.map_cons, List.sum_cons, if_neg hax]
      rw [ih hnd.2 hxs]

theorem get_q_cons (r : WorkRow) (wt : List WorkRow) (c : Int) (g : String) :
    get_q (r :: wt) c g
      = (if r.cohort = c ∧ r.gender = g then 1 else 0) + get_q wt c g := by
  simp only [get_q, List.filter_cons]
  by_cases h1 : r.cohort = c <;> by_cases h2 : r.gender = g <;>
    simp [h1, h2]
  omega

theorem sum_getq (wt : List WorkRow) (g : String) (l : List Int)
    (hnd : l.Nodup) (hcov : ∀ r ∈ wt, r.cohort ∈ l) :
    (l.map (fun c => get_q wt c g)).sum
      = (wt.filter (fun r => r.gender == g)).length := by
  induction wt with
  | nil =>
    rw [List.sum_eq_zero]
    · rfl
    · intro y hy
      rw [List.mem_map] at hy
      obtain ⟨c, -, hcy⟩ := hy
      rw [← hcy]
      rfl
  | cons r wt ih =>
    have hcov' : ∀ x ∈ wt, x.cohort ∈ l := fun x hx => hcov x (List.mem_cons_of_mem _ hx)
    have hsplit : (l.map (fun c => get_q (r :: wt) c g)).sum
        = (l.map (fun c => if r.cohort = c ∧ r.gender = g then 1 else 0)).sum
          + (l.map (fun c => get_q wt c g)).sum := by
      simp only [get_q_cons]
      rw [sum_map_addf]
    rw [hsplit, ih hcov']
    by_cases hg : r.gender = g
    · have hind : (l.map (fun c => if r.cohort = c ∧ r.gender = g then 1 else 0)).sum
          = 1 := by
        have he : (fun c => if r.cohort = c ∧ r.gender = g then (1 : ℕ) else 0)
            = (fun c => if r.cohort = c then (1 : ℕ) else 0) := by
          funext c
          by_cases hc : r.cohort = c <;> simp [hc, hg]
        rw [he]
        exact sum_indicator_one l r.cohort hnd (hcov r (List.mem_cons_self _ _))
      rw [hind]
      simp only [List.filter_cons, hg, beq_self_eq_true, if_pos, List.length_cons]
      omega
    · have hind : (l.map (fun c => if r.cohort = c ∧ r.gender = g then 1 else 0)).sum
          = 0 := by
        apply List.sum_eq_zero
        intro y hy
        rw [List.mem_map] at hy
        obtain ⟨c, -, hcy⟩ := hy
        rw [← hcy, if_neg]
        exact fun hc => hg hc.2
      rw [hind]
      have hgb : (r.gender == g) = false := by
        rw [beq_eq_false_iff_ne]
        exact hg
      simp [List.filter_cons, hgb]

theorem length_filter_or (wt : List WorkRow) :
    (wt.filter (fun r => r.gender == "man")).length
      + (wt.filter (fun r => r.gender == "woman")).length
      = (wt.filter (fun r => r.gender == "man" || r.gender == "woman")).length := by
  induction wt with
  | nil => rfl
  | cons r wt ih =>
    by_cases h1 : r.gender = "man" <;> by_cases h2 : r.gender = "woman" <;>
      simp [List.filter_cons, h1, h2, ih] <;> omega

theorem total_eq_count (wt : List WorkRow) :
    total wt = (wt.filter (fun r => r.gender == "man" || r.gender == "woman")).length := by
  unfold total cum_sums df_q
  rw [List.map_map]
  have hc : ((fun q : QRow => q.men + q.women) ∘ fun c =>
      ({ cohort := c, men := get_q wt c "man", women := get_q wt c "woman" } : QRow))
      = fun c => get_q wt c "man" + get_q wt c "woman" := rfl
  rw [hc, sum_map_addf,
    sum_getq wt "man" _ (cohortsOf_nodup wt)
      (fun r hr => mem_cohortsOf.mpr ⟨r, hr, rfl⟩),
    sum_getq wt "woman" _ (cohortsOf_nodup wt)
      (fun r hr => mem_cohortsOf.mpr ⟨r, hr, rfl⟩)]
  exact length_filter_or wt

/-- C2: the displayed n is the sum over cohorts of the `"man"` and
`"woman"` counts, i.e. the number of working-table rows whose gender is
one of the two counted values; a row with any other gender value is
counted in neither bucket, so (second conjunct) on a table with a
`"nonbinary"` row the displayed n differs from the row count. -/
theorem c2_displayed_total :
    (∀ wt : List WorkRow,
        total wt = ((cohortsOf wt).map
            (fun c => get_q wt c "man" + get_q wt c "woman")).sum ∧
        total wt = (wt.filter
            (fun r => r.gender == "man" || r.gender == "woman")).length) ∧
    total exNB ≠ exNB.length := by
  refine ⟨fun wt => ⟨?_, total_eq_count wt⟩, by decide⟩
  unfold total cum_sums df_q
  rw [List.map_map]
  rfl

/-- C8 counterexample: with a single row of gender `"nonbinary"`, the
sorted distinct observed gender values are `["nonbinary"]`, yet the
summary's gender dimension is still the fixed pair of `"man"`/`"woman"`
buckets (both zero here): the summary's axes are not determined by the
observed gender values. -/
theorem c8_counterexample :
    gendersOf exNB = ["nonbinary"] ∧
    df_q exNB = [{ cohort := 1, men := 0, women := 0 }] ∧
    total exNB = 0 ∧ exNB.length = 1 := by decide

/-- C8 (amended): the summary has one row per distinct cohort value, in
sorted order; the script also computes the sorted distinct non-null
gender values present; but each summary row's buckets are the fixed pair
counting `"man"` and `"woman"`, whatever gender values are observed. -/
theorem c8_summary_axes (wt : List WorkRow) :
    ((df_q wt).map (fun q => q.cohort) = cohortsOf wt) ∧
    (cohortsOf wt).Sorted (· ≤ ·) ∧ (cohortsOf wt).Nodup ∧
    (∀ c, c ∈ cohortsOf wt ↔ ∃ r ∈ wt, r.cohort = c) ∧
    (gendersOf wt).Sorted (· ≤ ·) ∧ (gendersOf wt).Nodup ∧
    (∀ g, g ∈ gendersOf wt ↔ g ≠ "nan" ∧ ∃ r ∈ wt, r.gender = g) ∧
    (∀ q ∈ df_q wt,
        q.men = get_q wt q.cohort "man" ∧ q.women = get_q wt q.cohort "woman") := by
  refine ⟨?_, cohortsOf_sorted wt, cohortsOf_nodup wt, fun c => mem_cohortsOf,
    gendersOf_sorted wt, gendersOf_nodup wt, fun g => mem_gendersOf, ?_⟩
  · rw [df_q, List.map_map]
    have hid : ((fun q : QRow => q.cohort) ∘ fun c =>
        ({ cohort := c, men := get_q wt c "man", women := get_q wt c "woman" } : QRow))
        = id := rfl
    rw [hid, List.map_id]
  · intro q hq
    rw [df_q, List.mem_map] at hq
    obtain ⟨c, -, rfl⟩ := hq
    exact ⟨rfl, rfl⟩

/-- Witness for the amended C8: the summary row of the `"nonbinary"` table
carries the fixed `"man"`/`"woman"` counts. -/
theorem c8_summary_axes_witness :
    ({ cohort := 1, men := 0, women := 0 } : QRow).men = get_q exNB 1 "man" ∧
    ({ cohort := 1, men := 0, women := 0 } : QRow).women = get_q exNB 1 "woman" :=
  (c8_summary_axes exNB).2.2.2.2.2.2.2 { cohort := 1, men := 0, women := 0 } (by decide)
